import Mathlib

/-!
Verification of the people-motion-zones pipeline
(`src/body_motion_analysis+zone+counter/src/people_motion_zones.py`).

The Python functions are shallowly embedded: integer pixel coordinates
become `Int`, Python float arithmetic is modelled exactly over `ℚ`
(the literal `1e-9` becomes the rational `1 / 10^9`), lists stay lists,
and the zone-count dictionary is modelled by its lookup function.
Because `ℚ` arithmetic does not evaluate inside the kernel, each
`ℚ`-valued definition comes with a proven-equal integer form used to
evaluate concrete instances.
-/

/-- `Point = Tuple[int, int]` from the source. -/
abbrev Point : Type := Int × Int

/-- `Polygon = List[Point]` from the source. -/
abbrev Polygon : Type := List Point

/-- The dataclass `Zone` with fields `name` and `points`. -/
structure Zone where
  name : String
  points : Polygon
deriving Repr, DecidableEq

/-- The float literal `1e-9` of `inside_polygon`, as an exact rational. -/
def eps : ℚ := 1 / 1000000000

/-- One iteration of the edge loop of `inside_polygon` (source lines 36-42):
fetch the edge `(poly[i], poly[(i+1) % n])`, and when the two endpoints lie on
opposite sides of the horizontal line through the query point, toggle the
`inside` flag exactly when `x < (x2 - x1) * (y - y1) / (y2 - y1 + 1e-9) + x1`. -/
def rayStep (x y : Int) (poly : Polygon) (n : Nat) (inside : Bool) (i : Nat) : Bool :=
  let p1 := poly.getD i (0, 0)
  let p2 := poly.getD ((i + 1) % n) (0, 0)
  if (decide (p1.2 > y)) != (decide (p2.2 > y)) then
    if (x : ℚ) <
        ((p2.1 : ℚ) - (p1.1 : ℚ)) * ((y : ℚ) - (p1.2 : ℚ)) /
          ((p2.2 : ℚ) - (p1.2 : ℚ) + eps) + (p1.1 : ℚ) then
      !inside
    else inside
  else inside

/-- Embedding of `inside_polygon` (source lines 29-43): ray casting over the
polygon's edges, indexed exactly as in the source (`for i in range(n)` with the
wrap-around neighbour `poly[(i + 1) % n]`); polygons with fewer than 3 points
return `False` immediately. -/
def inside_polygon (pt : Point) (poly : Polygon) : Bool :=
  if poly.length < 3 then false
  else (List.range poly.length).foldl (rayStep pt.1 pt.2 poly poly.length) false

/-- Integer-arithmetic form of `rayStep`: the rational comparison against the
edge intersection is replaced by the equivalent integer comparison obtained by
multiplying through by the (sign-analysed) denominator and by `10^9`. -/
def rayStepInt (x y : Int) (poly : Polygon) (n : Nat) (inside : Bool) (i : Nat) : Bool :=
  let p1 := poly.getD i (0, 0)
  let p2 := poly.getD ((i + 1) % n) (0, 0)
  if (decide (p1.2 > y)) != (decide (p2.2 > y)) then
    if (p1.2 < p2.2 ∧
          (x - p1.1) * ((p2.2 - p1.2) * 1000000000 + 1) <
            (p2.1 - p1.1) * (y - p1.2) * 1000000000) ∨
        (p2.2 < p1.2 ∧
          (p2.1 - p1.1) * (y - p1.2) * 1000000000 <
            (x - p1.1) * ((p2.2 - p1.2) * 1000000000 + 1)) then
      !inside
    else inside
  else inside

/-- Integer-arithmetic form of `inside_polygon`, used to evaluate concrete
instances; proved equal to `inside_polygon` below. -/
def inside_polygon_int (pt : Point) (poly : Polygon) : Bool :=
  if poly.length < 3 then false
  else (List.range poly.length).foldl (rayStepInt pt.1 pt.2 poly poly.length) false

/-- Crossing test for one edge, written from the spec's words: test
`(y1 > y) != (y2 > y)`, compute the x-intersection with the additive epsilon in
the denominator, and toggle the `inside` flag when the query point's x is left
of the intersection. -/
def specCross (x y : Int) (inside : Bool) (e : Point × Point) : Bool :=
  let p1 := e.1
  let p2 := e.2
  if (decide (p1.2 > y)) != (decide (p2.2 > y)) then
    if (x : ℚ) <
        ((p2.1 : ℚ) - (p1.1 : ℚ)) * ((y : ℚ) - (p1.2 : ℚ)) /
          ((p2.2 : ℚ) - (p1.2 : ℚ) + eps) + (p1.1 : ℚ) then
      !inside
    else inside
  else inside

/-- The polygon's edges with wrap-around, written from the spec's words: each
vertex is paired with its successor, the last one with the first. -/
def specEdges (poly : Polygon) : List (Point × Point) :=
  poly.zip (poly.drop 1 ++ poly.take 1)

/-- Ray casting as the spec words it: iterate the polygon's edges with
wrap-around, folding the crossing test; polygons shorter than 3 points always
return false. -/
def inside_polygon_spec (pt : Point) (poly : Polygon) : Bool :=
  if poly.length < 3 then false
  else (specEdges poly).foldl (specCross pt.1 pt.2) false

/-- State of the interactive zone editor inside `main`: the committed zones,
the running default-name counter (initialised to `len(zones)`, source line
261), and the active polygon being drawn. -/
structure EditorState where
  zones : List Zone
  zoneCounter : Nat
  active : Polygon
deriving Repr, DecidableEq

/-- The mouse handler `on_mouse` (source lines 284-286): a left click appends
the point to the active polygon. -/
def addPoint (s : EditorState) (p : Point) : EditorState :=
  { s with active := s.active ++ [p] }

/-- The `n` key handler of `main` (source lines 369-376): when the active
polygon has at least 3 points, increment the counter and append a zone named
`Zone {zone_counter}` whose points are a copy of the active polygon; in
every case clear the active polygon. -/
def finalize (s : EditorState) : EditorState :=
  if 3 ≤ s.active.length then
    { zones := s.zones ++
        [{ name := "Zone " ++ toString (s.zoneCounter + 1), points := s.active }],
      zoneCounter := s.zoneCounter + 1,
      active := [] }
  else
    { s with active := [] }

/-- One persisted record as `json.load` hands it to `load_zones`: the optional
`name` field and the optional `points` field of one JSON object. -/
structure ZoneRec where
  name : Option String
  points : Option Polygon
deriving Repr, DecidableEq

/-- The persisted zone file as `load_zones` encounters it: absent
(`os.path.exists` is false), present but rejected by `json.load`, or parsed
into an ordered list of records. -/
inductive ZoneFile
  | missing
  | unparseable
  | parsed (data : List ZoneRec)
deriving Repr, DecidableEq

/-- The record loop of `load_zones` (source lines 77-78): record `i` becomes a
zone whose name defaults to `Zone {i+1}`; a record with no point list raises
(`d["points"]` is an unchecked key access). -/
def loadRecs : Nat → List ZoneRec → Except Unit (List Zone)
  | _, [] => .ok []
  | i, r :: rest =>
    match r.points with
    | none => .error ()
    | some ps =>
      match loadRecs (i + 1) rest with
      | .error e => .error e
      | .ok zs =>
        .ok ({ name := r.name.getD ("Zone " ++ toString (i + 1)), points := ps } :: zs)

/-- Embedding of `load_zones` (source lines 72-79): a missing file yields `[]`;
a `json.load` failure or a record without its point list raises. -/
def load_zones : ZoneFile → Except Unit (List Zone)
  | .missing => .ok []
  | .unparseable => .error ()
  | .parsed data => loadRecs 0 data

/-- Embedding of `save_zones` (source lines 66-69): each zone is written as
the record `{"name": z.name, "points": z.points}`, in order. -/
def save_zones (zones : List Zone) : ZoneFile :=
  .parsed (zones.map fun z => { name := some z.name, points := some z.points })

/-- The run state of `main` with respect to zone loading. -/
inductive PipelineZones
  | running (zones : List Zone)
  | aborted
deriving Repr, DecidableEq

/-- Zone loading as `main` performs it (startup, source line 258, and the `l`
key handler, lines 381-384): `load_zones` is called with no exception handler,
so a load failure propagates and ends the run. -/
def pipelineLoadZones (file : ZoneFile) : PipelineZones :=
  match load_zones file with
  | .ok zs => .running zs
  | .error _ => .aborted

/-- Truncation of a rational toward zero, the effect of Python's `int(...)`
on the float values produced in `centroid_of_bbox`. -/
def ratTrunc (q : ℚ) : Int :=
  if 0 ≤ q then ⌊q⌋ else ⌈q⌉

/-- Embedding of `centroid_of_bbox` (source lines 141-142):
`(int(x + w / 2), int(y + h / 2))`, the float division and truncation carried
out exactly over `ℚ`. -/
def centroid_of_bbox (x y w h : Int) : Point :=
  (ratTrunc ((x : ℚ) + (w : ℚ) / 2), ratTrunc ((y : ℚ) + (h : ℚ) / 2))

/-- A detection tuple `(x, y, w, h, conf)` as produced by the detectors. -/
structure Detection where
  x : Int
  y : Int
  w : Int
  h : Int
  conf : ℚ
deriving Repr, DecidableEq

/-- One increment `counts_per_zone[k] += 1` of the zone-count dictionary
(source line 323), the dictionary modelled by its lookup function. -/
def bump (m : String → Nat) (k : String) : String → Nat :=
  fun n => if n = k then m k + 1 else m n

/-- The per-frame occupancy tally of `main` (source lines 317-323): start all
zone names at zero, then for every detection and every zone whose polygon
contains the detection's centroid, increment the entry at the zone's name. -/
def countsPerZone (dets : List Detection) (zones : List Zone) : String → Nat :=
  dets.foldl
    (fun m d =>
      let c := centroid_of_bbox d.x d.y d.w d.h
      zones.foldl
        (fun m' z => if inside_polygon c z.points then bump m' z.name else m') m)
    (fun _ => 0)

/-- A zone contributes to the count at name `k` when it carries that name and
its polygon contains the centroid. -/
def zoneHit (c : Point) (k : String) (z : Zone) : Bool :=
  decide (z.name = k) && inside_polygon c z.points

/-- Integer-arithmetic form of `zoneHit`, for evaluating concrete tallies. -/
def zoneHitInt (c : Point) (k : String) (z : Zone) : Bool :=
  decide (z.name = k) && inside_polygon_int c z.points

/-- Normalisation of one Python slice bound against an axis of length `L`,
step 1: a negative bound counts from the end of the axis (`bound + L`), and
the result is clamped into `[0, L]`. Numpy basic slicing, as used for
`fgmask[y1:y2, x1:x2]`, follows exactly these CPython slice semantics. -/
def sliceIdx (L : Nat) (a : Int) : Nat :=
  if a < 0 then ((L : Int) + a).toNat else min a.toNat L

/-- Per-detection motion percentage from `compute_motion_percent` (source
lines 149-161): compute `x1 = max(0, x)`, `y1 = max(0, y)`,
`x2 = min(W, x + w)`, `y2 = min(H, y + h)` and slice
`roi = fgmask[y1:y2, x1:x2]` with numpy semantics (`sliceIdx`; in particular
a negative `x2` or `y2` wraps to count from the right or bottom edge); an
empty region of interest yields 0.0, otherwise threshold the foreground mask
inside the region at `motion_thresh` and return the percentage of moving
pixels. The MOG2 foreground mask is opaque state and is modelled as an
arbitrary pixel function `mask row col`. -/
def motionValue (mask : Nat → Nat → Nat) (W H : Nat) (thresh : Nat)
    (x y w h : Int) : ℚ :=
  let x1 := max 0 x
  let y1 := max 0 y
  let x2 := min (W : Int) (x + w)
  let y2 := min (H : Int) (y + h)
  let c1 := sliceIdx W x1
  let c2 := sliceIdx W x2
  let r1 := sliceIdx H y1
  let r2 := sliceIdx H y2
  let cols := c2 - c1
  let rows := r2 - r1
  let total := rows * cols
  if total = 0 then 0
  else
    let moving := ((List.range rows).map (fun r =>
      ((List.range cols).filter
        (fun c => thresh < mask (r1 + r) (c1 + c))).length)).sum
    if 0 < total then 100 * (moving : ℚ) / (total : ℚ) else 0

/-- Embedding of `compute_motion_percent` (source lines 145-163): the
per-detection motion list and its average (`np.mean`, guarded to 0.0 on an
empty list); the returned foreground mask is the modelled `mask` input and is
omitted. -/
def compute_motion_percent (mask : Nat → Nat → Nat) (W H : Nat)
    (dets : List Detection) (thresh : Nat) : ℚ × List ℚ :=
  let motion_values := dets.map fun d => motionValue mask W H thresh d.x d.y d.w d.h
  let avg := if motion_values.isEmpty then 0
    else motion_values.sum / (motion_values.length : ℚ)
  (avg, motion_values)

/-- CSV header written once when `main` opens the log (source lines 290-296):
frame index, total detection count, average motion, then one column per zone
name present at open time. -/
def csvHeader (zones : List Zone) : List String :=
  ["frame", "count_total", "avg_motion"] ++ zones.map Zone.name

/-- Two-digit decimal fraction used by the fixed-precision motion format. -/
def pad2 (r : Nat) : String :=
  String.mk [Nat.digitChar (r / 10), Nat.digitChar (r % 10)]

/-- Two-decimal rendering of the average motion, modelling the f-string
`f"{avg_motion:.2f}"`; rounding of the hundredths is to the nearest, over
`ℚ` (float tie behaviour is not modelled). -/
def fmt2 (q : ℚ) : String :=
  let n : Int := ⌊q * 100 + 1 / 2⌋
  if n < 0 then "-" ++ toString ((-n) / 100) ++ "." ++ pad2 ((-n) % 100).toNat
  else toString (n / 100) ++ "." ++ pad2 (n % 100).toNat

/-- One CSV row of `main` (source lines 350-354): frame index, number of
detections, average motion to two decimals, then the count for every zone in
the zone list current at that frame. -/
def csvRow (frameIdx : Nat) (dets : List Detection) (avgMotion : ℚ)
    (zones : List Zone) : List String :=
  [toString frameIdx, toString dets.length, fmt2 avgMotion] ++
    zones.map fun z => toString (countsPerZone dets zones z.name)

/-- The row log over a run: the header for the zones present at open time,
then one row per processed frame, each computed from that frame's detections,
average motion, and then-current zone list. -/
def runLog (openZones : List Zone)
    (trace : List (List Detection × ℚ × List Zone)) : List (List String) :=
  csvHeader openZones ::
    trace.enum.map fun p => csvRow p.1 p.2.1 p.2.2.1 p.2.2.2

/-- The ray-casting comparison `x < (x2 - x1) * (y - y1) / (y2 - y1 + eps) + x1`
over `ℚ`, for a non-horizontal edge, is equivalent to a pure integer
comparison (multiply through by the denominator, whose sign is that of
`y2 - y1`, and then by `10^9`). -/
lemma ray_cmp (x y x1 y1 x2 y2 : ℤ) (hne : y1 ≠ y2) :
    ((x : ℚ) < ((x2 : ℚ) - (x1 : ℚ)) * ((y : ℚ) - (y1 : ℚ)) /
        ((y2 : ℚ) - (y1 : ℚ) + eps) + (x1 : ℚ)) ↔
      ((y1 < y2 ∧
          (x - x1) * ((y2 - y1) * 1000000000 + 1) <
            (x2 - x1) * (y - y1) * 1000000000) ∨
        (y2 < y1 ∧
          (x2 - x1) * (y - y1) * 1000000000 <
            (x - x1) * ((y2 - y1) * 1000000000 + 1))) := by
  have heps : (eps : ℚ) = 1 / 1000000000 := rfl
  have h9 : (0 : ℚ) < 1000000000 := by norm_num
  have e2 : ((x2 : ℚ) - x1) * ((y : ℚ) - y1) * 1000000000
      = (((x2 - x1) * (y - y1) * 1000000000 : ℤ) : ℚ) := by push_cast; ring
  have e1 : ((x : ℚ) - x1) * ((y2 : ℚ) - y1 + eps) * 1000000000
      = (((x - x1) * ((y2 - y1) * 1000000000 + 1) : ℤ) : ℚ) := by
    rw [heps]; push_cast; ring
  rcases lt_or_gt_of_ne hne with h | h
  · have hno : ¬ y2 < y1 := by omega
    have hBpos : (0 : ℚ) < (y2 : ℚ) - y1 + eps := by
      have h1 : (1 : ℚ) ≤ (y2 : ℚ) - y1 := by
        exact_mod_cast (by omega : (1 : ℤ) ≤ y2 - y1)
      rw [heps]; linarith
    have main : ((x : ℚ) < ((x2 : ℚ) - x1) * ((y : ℚ) - y1) /
          ((y2 : ℚ) - y1 + eps) + x1) ↔
        (x - x1) * ((y2 - y1) * 1000000000 + 1) <
          (x2 - x1) * (y - y1) * 1000000000 := by
      rw [← sub_lt_iff_lt_add, lt_div_iff₀ hBpos, ← mul_lt_mul_right h9, e1, e2,
        Int.cast_lt]
    constructor
    · intro hq; exact Or.inl ⟨h, main.mp hq⟩
    · rintro (⟨_, hi⟩ | ⟨hy, _⟩)
      · exact main.mpr hi
      · exact absurd hy hno
  · have hno : ¬ y1 < y2 := by omega
    have hBneg : (y2 : ℚ) - y1 + eps < 0 := by
      have h1 : (y2 : ℚ) - y1 ≤ -1 := by
        exact_mod_cast (by omega : y2 - y1 ≤ (-1 : ℤ))
      rw [heps]; linarith
    have main : ((x : ℚ) < ((x2 : ℚ) - x1) * ((y : ℚ) - y1) /
          ((y2 : ℚ) - y1 + eps) + x1) ↔
        (x2 - x1) * (y - y1) * 1000000000 <
          (x - x1) * ((y2 - y1) * 1000000000 + 1) := by
      rw [← sub_lt_iff_lt_add, lt_div_iff_of_neg hBneg, ← mul_lt_mul_right h9,
        e2, e1, Int.cast_lt]
    constructor
    · intro hq; exact Or.inr ⟨h, main.mp hq⟩
    · rintro (⟨hy, _⟩ | ⟨_, hi⟩)
      · exact absurd hy hno
      · exact main.mpr hi

/-- The rational and the integer edge steps agree. -/
lemma rayStep_eq_int (x y : Int) (poly : Polygon) (n : Nat) :
    rayStep x y poly n = rayStepInt x y poly n := by
  funext inside i
  simp only [rayStep, rayStepInt]
  generalize poly.getD i (0, 0) = p1
  generalize poly.getD ((i + 1) % n) (0, 0) = p2
  by_cases hg : ((decide (p1.2 > y)) != (decide (p2.2 > y))) = true
  · rw [if_pos hg, if_pos hg]
    have hne : p1.2 ≠ p2.2 := by
      intro he
      rw [he] at hg
      simp at hg
    exact if_congr (ray_cmp x y p1.1 p1.2 p2.1 p2.2 hne) rfl rfl
  · rw [if_neg hg, if_neg hg]

/-- `inside_polygon` agrees with its integer-arithmetic form everywhere. -/
lemma inside_polygon_eq_int (pt : Point) (poly : Polygon) :
    inside_polygon pt poly = inside_polygon_int pt poly := by
  unfold inside_polygon inside_polygon_int
  rw [rayStep_eq_int]

/-- Folding over indices `0..n-1` with the wrap-around neighbour
`(i + 1) % n` is the same as folding over the zipped edge list. -/
lemma foldl_range_wrap {α β : Type} (l : List α) (d : α) (g : β → α × α → β)
    (init : β) (h : l ≠ []) :
    (List.range l.length).foldl
        (fun b i => g b (l.getD i d, l.getD ((i + 1) % l.length) d)) init
      = (l.zip (l.drop 1 ++ l.take 1)).foldl g init := by
  have hpos : 0 < l.length := List.length_pos.mpr h
  have hmap : (List.range l.length).map
      (fun i => (l.getD i d, l.getD ((i + 1) % l.length) d))
      = l.zip (l.drop 1 ++ l.take 1) := by
    apply List.ext_getElem
    · simp
      omega
    · intro i h1 h2
      simp only [List.getElem_map, List.getElem_range, List.getElem_zip]
      have hi : i < l.length := by simpa using h1
      refine Prod.ext ?_ ?_
      · dsimp only
        exact List.getD_eq_getElem l d hi
      · dsimp only
        by_cases hc : i + 1 < l.length
        · rw [Nat.mod_eq_of_lt hc, List.getD_eq_getElem l d hc]
          rw [List.getElem_append_left (by simp; omega)]
          rw [List.getElem_drop]
          have hadd : 1 + i = i + 1 := by omega
          simp only [hadd]
        · have hlast : i + 1 = l.length := by omega
          rw [hlast, Nat.mod_self, List.getD_eq_getElem l d hpos]
          rw [List.getElem_append_right (by simp; omega)]
          rw [List.getElem_take]
          have h0 : i - ((List.drop 1 l).length) = 0 := by simp; omega
          simp only [h0]
  calc (List.range l.length).foldl
        (fun b i => g b (l.getD i d, l.getD ((i + 1) % l.length) d)) init
      = ((List.range l.length).map
          (fun i => (l.getD i d, l.getD ((i + 1) % l.length) d))).foldl g init := by
        rw [List.foldl_map]
    _ = (l.zip (l.drop 1 ++ l.take 1)).foldl g init := by rw [hmap]

/-- `inside_polygon` computes exactly the spec's edge-list fold. -/
lemma inside_polygon_eq_spec (pt : Point) (poly : Polygon) :
    inside_polygon pt poly = inside_polygon_spec pt poly := by
  unfold inside_polygon inside_polygon_spec
  by_cases h3 : poly.length < 3
  · rw [if_pos h3, if_pos h3]
  · rw [if_neg h3, if_neg h3]
    have hne : poly ≠ [] := by
      intro he
      rw [he] at h3
      simp at h3
    have hstep : rayStep pt.1 pt.2 poly poly.length
        = fun b i => specCross pt.1 pt.2 b
            (poly.getD i (0, 0), poly.getD ((i + 1) % poly.length) (0, 0)) := rfl
    rw [hstep, specEdges]
    exact foldl_range_wrap poly (0, 0) (specCross pt.1 pt.2) false hne

/-- C1: the point-in-polygon test implements ray casting exactly as specified:
it folds the crossing test over the polygon's edges with wrap-around,
considering an edge only when `(y1 > y) != (y2 > y)`, computing the
x-intersection as `(x2 - x1) * (y - y1) / (y2 - y1 + 1e-9) + x1` and toggling
the inside flag exactly when `x` is strictly below it; for the square
`[(0,0),(10,0),(10,10),(0,10)]`, `(5,5)` is inside and `(15,15)` outside. -/
theorem inside_polygon_implements_raycast :
    (∀ (pt : Point) (poly : Polygon),
        inside_polygon pt poly = inside_polygon_spec pt poly)
    ∧ inside_polygon (5, 5) [(0, 0), (10, 0), (10, 10), (0, 10)] = true
    ∧ inside_polygon (15, 15) [(0, 0), (10, 0), (10, 10), (0, 10)] = false := by
  refine ⟨inside_polygon_eq_spec, ?_, ?_⟩
  · rw [inside_polygon_eq_int]; decide
  · rw [inside_polygon_eq_int]; decide

/-- C2: a polygon with fewer than 3 points never contains any query point. -/
theorem inside_polygon_degenerate (pt : Point) (poly : Polygon)
    (h : poly.length < 3) : inside_polygon pt poly = false := by
  unfold inside_polygon
  rw [if_pos h]

/-- Witness for C2 at a concrete degenerate polygon. -/
theorem inside_polygon_degenerate_witness :
    ([(0, 0), (1, 1)] : Polygon).length < 3
    ∧ inside_polygon (0, 0) [(0, 0), (1, 1)] = false :=
  ⟨by decide, inside_polygon_degenerate (0, 0) [(0, 0), (1, 1)] (by decide)⟩

/-- C10: on the square `[(0,0),(10,0),(10,10),(0,10)]` the boundary point
`(10,5)` on the right edge is classified outside: the only crossing edge
there yields an intersection at `x = 10`, and the flag toggles only on a
strict `x <` comparison. -/
theorem boundary_point_right_edge_outside :
    inside_polygon (10, 5) [(0, 0), (10, 0), (10, 10), (0, 10)] = false := by
  rw [inside_polygon_eq_int]; decide

/-- C3: finalize is a two-branch transition: with at least 3 active points it
commits exactly one snapshot zone with the default name and clears the active
polygon, otherwise it only clears the active polygon; in particular three
added points commit `[a, b, c]` as one zone and two added points commit
nothing. -/
theorem finalize_two_branch :
    (∀ s : EditorState, 3 ≤ s.active.length →
      finalize s =
        { zones := s.zones ++
            [{ name := "Zone " ++ toString (s.zoneCounter + 1), points := s.active }],
          zoneCounter := s.zoneCounter + 1, active := [] })
    ∧ (∀ s : EditorState, s.active.length < 3 → finalize s = { s with active := [] })
    ∧ (∀ (s : EditorState) (a b c : Point), s.active = [] →
      finalize (addPoint (addPoint (addPoint s a) b) c) =
        { zones := s.zones ++
            [{ name := "Zone " ++ toString (s.zoneCounter + 1), points := [a, b, c] }],
          zoneCounter := s.zoneCounter + 1, active := [] })
    ∧ (∀ (s : EditorState) (a b : Point), s.active = [] →
      finalize (addPoint (addPoint s a) b) = { s with active := [] }) := by
  refine ⟨?_, ?_, ?_, ?_⟩
  · intro s h
    unfold finalize
    rw [if_pos h]
  · intro s h
    unfold finalize
    rw [if_neg (by omega)]
  · intro s a b c h
    simp [finalize, addPoint, h]
  · intro s a b h
    simp [finalize, addPoint, h]

/-- Witness for C3: both branches exercised on concrete editor states. -/
theorem finalize_two_branch_witness :
    finalize ⟨[], 0, [(0, 0), (1, 0), (0, 1)]⟩ =
      { zones :=
          [{ name := "Zone " ++ toString (0 + 1), points := [(0, 0), (1, 0), (0, 1)] }],
        zoneCounter := 0 + 1, active := [] }
    ∧ finalize ⟨[], 0, [(0, 0)]⟩ = { zones := [], zoneCounter := 0, active := [] } :=
  ⟨finalize_two_branch.1 ⟨[], 0, [(0, 0), (1, 0), (0, 1)]⟩ (by decide),
   finalize_two_branch.2.1 ⟨[], 0, [(0, 0)]⟩ (by decide)⟩

/-- Counterexample to C5 as stated: on a record with no point list the
pipeline aborts; it does not continue running with an empty zone collection. -/
theorem pipeline_aborts_on_malformed :
    pipelineLoadZones (.parsed [{ name := some "A", points := none }]) = .aborted
    ∧ pipelineLoadZones (.parsed [{ name := some "A", points := none }])
        ≠ .running [] := by
  exact ⟨rfl, by decide⟩

/-- A record list containing a record with no point list always makes the
record loop fail. -/
lemma loadRecs_error_of_missing_points (data : List ZoneRec)
    (h : ∃ r ∈ data, r.points = none) :
    ∀ i, loadRecs i data = .error () := by
  induction data with
  | nil => rcases h with ⟨r, hr, _⟩; cases hr
  | cons r rest ih =>
    intro i
    rcases h with ⟨r', hr', hp⟩
    rcases List.mem_cons.mp hr' with he | hm
    · subst he
      unfold loadRecs
      rw [hp]
    · unfold loadRecs
      cases hrp : r.points with
      | none => rfl
      | some ps => rw [ih ⟨r', hm, hp⟩ (i + 1)]

/-- C5 (amended): loading a missing file yields the empty collection; a parse
failure or a record missing its point list makes `load_zones` fail; and since
`main` installs no handler, any load failure aborts the pipeline instead of
continuing with an empty zone collection. -/
theorem load_zones_error_behavior :
    load_zones .missing = .ok []
    ∧ load_zones .unparseable = .error ()
    ∧ (∀ data : List ZoneRec, (∃ r ∈ data, r.points = none) →
        load_zones (.parsed data) = .error ())
    ∧ (∀ (file : ZoneFile) (e : Unit), load_zones file = .error e →
        pipelineLoadZones file = .aborted) := by
  refine ⟨rfl, rfl, ?_, ?_⟩
  · intro data h
    exact loadRecs_error_of_missing_points data h 0
  · intro file e h
    unfold pipelineLoadZones
    rw [h]

/-- Witness for C5 (amended) at a concrete malformed record list. -/
theorem load_zones_error_behavior_witness :
    load_zones (.parsed [{ name := none, points := none }]) = .error ()
    ∧ pipelineLoadZones .unparseable = .aborted :=
  ⟨load_zones_error_behavior.2.2.1 [{ name := none, points := none }]
      ⟨{ name := none, points := none }, by decide, rfl⟩,
   load_zones_error_behavior.2.2.2 .unparseable () rfl⟩

/-- The record loop restores exactly the saved zones, for any starting index. -/
lemma loadRecs_save (zones : List Zone) :
    ∀ i, loadRecs i
        (zones.map fun z => { name := some z.name, points := some z.points })
      = .ok zones := by
  induction zones with
  | nil => intro i; rfl
  | cons z rest ih =>
    intro i
    simp only [List.map_cons]
    unfold loadRecs
    rw [ih (i + 1)]
    rfl

/-- C6: saving any zone collection and loading it back yields the identical
collection: same names and same point sequences, in the same order. -/
theorem save_load_round_trip (zones : List Zone) :
    load_zones (save_zones zones) = .ok zones := by
  unfold save_zones load_zones
  exact loadRecs_save zones 0

/-- Truncating the rational `a / d` is integer truncated division. -/
lemma ratTrunc_intCast_div_natCast (a : ℤ) (d : ℕ) (hd : 0 < d) :
    ratTrunc ((a : ℚ) / (d : ℚ)) = a.tdiv d := by
  have hd0 : (0 : ℤ) ≤ (d : ℤ) := by exact_mod_cast Nat.zero_le d
  rcases le_or_lt 0 a with ha | ha
  · have hq : (0 : ℚ) ≤ (a : ℚ) / (d : ℚ) :=
      div_nonneg (by exact_mod_cast ha) (by exact_mod_cast Nat.zero_le d)
    unfold ratTrunc
    rw [if_pos hq, Rat.floor_intCast_div_natCast]
    exact (Int.tdiv_eq_ediv ha hd0).symm
  · have hq : (a : ℚ) / (d : ℚ) < 0 :=
      div_neg_of_neg_of_pos (by exact_mod_cast ha) (by exact_mod_cast hd)
    unfold ratTrunc
    rw [if_neg (not_le.mpr hq)]
    have hceil : ⌈(a : ℚ) / (d : ℚ)⌉ = -⌊(((-a) : ℤ) : ℚ) / (d : ℚ)⌋ := by
      have hf := Int.floor_neg (a := (a : ℚ) / (d : ℚ))
      have he : -((a : ℚ) / (d : ℚ)) = (((-a) : ℤ) : ℚ) / (d : ℚ) := by
        push_cast; ring
      rw [he] at hf
      omega
    rw [hceil, Rat.floor_intCast_div_natCast,
      ← Int.tdiv_eq_ediv (by omega) hd0, Int.neg_tdiv, neg_neg]

/-- `centroid_of_bbox` is integer truncated division of `2x + w` and
`2y + h` by two. -/
lemma centroid_tdiv (x y w h : Int) :
    centroid_of_bbox x y w h = ((2 * x + w).tdiv 2, (2 * y + h).tdiv 2) := by
  unfold centroid_of_bbox
  have e1 : (x : ℚ) + (w : ℚ) / 2 = ((2 * x + w : ℤ) : ℚ) / ((2 : ℕ) : ℚ) := by
    push_cast; ring
  have e2 : (y : ℚ) + (h : ℚ) / 2 = ((2 * y + h : ℤ) : ℚ) / ((2 : ℕ) : ℚ) := by
    push_cast; ring
  rw [e1, e2, ratTrunc_intCast_div_natCast _ 2 (by norm_num),
    ratTrunc_intCast_div_natCast _ 2 (by norm_num)]
  norm_num

/-- The two hit predicates agree. -/
lemma zoneHit_eq_int : zoneHit = zoneHitInt := by
  funext c k z
  unfold zoneHit zoneHitInt
  rw [inside_polygon_eq_int]

/-- Closed form of the inner zone loop of the tally. -/
lemma zones_foldl_apply (c : Point) (zones : List Zone) (m : String → Nat)
    (k : String) :
    (zones.foldl
        (fun m' z => if inside_polygon c z.points then bump m' z.name else m') m) k
      = m k + zones.countP (zoneHit c k) := by
  induction zones generalizing m with
  | nil => simp
  | cons z rest ih =>
    simp only [List.foldl_cons, List.countP_cons]
    by_cases hin : inside_polygon c z.points = true
    · rw [if_pos hin, ih]
      unfold bump zoneHit
      by_cases hk : z.name = k
      · simp [hk, hin]
        omega
      · have hk' : ¬ k = z.name := fun he => hk he.symm
        simp [hk, hk', hin]
    · rw [if_neg hin, ih]
      unfold zoneHit
      simp [hin]

/-- Closed form of the whole tally: the count at name `k` sums, over the
detections, the number of zones named `k` containing that centroid. -/
lemma countsPerZone_apply (dets : List Detection) (zones : List Zone)
    (k : String) :
    countsPerZone dets zones k
      = (dets.map (fun d =>
          zones.countP (zoneHit (centroid_of_bbox d.x d.y d.w d.h) k))).sum := by
  unfold countsPerZone
  suffices hgen : ∀ m : String → Nat,
      (dets.foldl
        (fun m d =>
          let c := centroid_of_bbox d.x d.y d.w d.h
          zones.foldl
            (fun m' z => if inside_polygon c z.points then bump m' z.name else m') m)
        m) k
      = m k + (dets.map (fun d =>
          zones.countP (zoneHit (centroid_of_bbox d.x d.y d.w d.h) k))).sum by
    rw [hgen fun _ => 0]
    omega
  induction dets with
  | nil => intro m; simp
  | cons d rest ih =>
    intro m
    simp only [List.foldl_cons, List.map_cons, List.sum_cons]
    rw [ih, zones_foldl_apply]
    omega

/-- C7 (amended): appending a zone whose name differs from a pre-existing
zone's name never changes the occupancy count at that name, for any
detections. -/
theorem occupancy_append_fresh_zone (dets : List Detection) (zones : List Zone)
    (w : Zone) (k : String) (hk : w.name ≠ k) :
    countsPerZone dets (zones ++ [w]) k = countsPerZone dets zones k := by
  rw [countsPerZone_apply, countsPerZone_apply]
  apply congrArg List.sum
  apply List.map_congr_left
  intro d _
  rw [List.countP_append]
  have hw : List.countP (zoneHit (centroid_of_bbox d.x d.y d.w d.h) k) [w] = 0 := by
    simp [zoneHit, hk]
  rw [hw]
  omega

/-- Witness for C7 (amended) at concrete detections and zones. -/
theorem occupancy_append_fresh_zone_witness :
    (Zone.mk "B" [(0, 0), (40, 0), (40, 40), (0, 40)]).name ≠ "A"
    ∧ countsPerZone [⟨30, 30, 10, 10, 1⟩]
        ([⟨"A", [(0, 0), (20, 0), (20, 20), (0, 20)]⟩] ++
          [⟨"B", [(0, 0), (40, 0), (40, 40), (0, 40)]⟩]) "A"
      = countsPerZone [⟨30, 30, 10, 10, 1⟩]
          [⟨"A", [(0, 0), (20, 0), (20, 20), (0, 20)]⟩] "A" :=
  ⟨by decide,
   occupancy_append_fresh_zone [⟨30, 30, 10, 10, 1⟩]
     [⟨"A", [(0, 0), (20, 0), (20, 20), (0, 20)]⟩]
     ⟨"B", [(0, 0), (40, 0), (40, 40), (0, 40)]⟩ "A" (by decide)⟩

/-- Counterexample to C7 as stated: appending a zone that reuses the name of
an existing zone changes the count recorded under that name, because the
tally dictionary is keyed by name. The detection's centroid `(35, 35)` lies
only in the appended polygon, yet the count at the pre-existing name `A`
moves from 0 to 1. -/
theorem occupancy_append_duplicate_name_changes :
    countsPerZone [⟨30, 30, 10, 10, 1⟩]
        [⟨"A", [(0, 0), (20, 0), (20, 20), (0, 20)]⟩] "A" = 0
    ∧ countsPerZone [⟨30, 30, 10, 10, 1⟩]
        ([⟨"A", [(0, 0), (20, 0), (20, 20), (0, 20)]⟩] ++
          [⟨"A", [(0, 0), (40, 0), (40, 40), (0, 40)]⟩]) "A" = 1 := by
  constructor
  · rw [countsPerZone_apply]
    simp only [List.map_cons, List.map_nil, List.sum_cons, List.sum_nil]
    rw [zoneHit_eq_int, centroid_tdiv]
    decide
  · rw [countsPerZone_apply]
    simp only [List.map_cons, List.map_nil, List.sum_cons, List.sum_nil]
    rw [zoneHit_eq_int, centroid_tdiv]
    decide

/-- C9: the occupancy centroid is `(x + w/2, y + h/2)` with integer
truncation (truncated division of `2x + w` and `2y + h` by two); in
particular detection `(0, 0, 10, 10, 0.9)` has centroid `(5, 5)`, and against
the single zone `A = [(0,0),(20,0),(20,20),(0,20)]` the tally at `A` is 1. -/
theorem centroid_truncation_and_tally :
    (∀ x y w h : Int,
      centroid_of_bbox x y w h = ((2 * x + w).tdiv 2, (2 * y + h).tdiv 2))
    ∧ centroid_of_bbox 0 0 10 10 = (5, 5)
    ∧ countsPerZone [⟨0, 0, 10, 10, 9 / 10⟩]
        [⟨"A", [(0, 0), (20, 0), (20, 20), (0, 20)]⟩] "A" = 1 := by
  refine ⟨centroid_tdiv, ?_, ?_⟩
  · rw [centroid_tdiv]
    decide
  · rw [countsPerZone_apply]
    simp only [List.map_cons, List.map_nil, List.sum_cons, List.sum_nil]
    rw [zoneHit_eq_int, centroid_tdiv]
    decide

/-- C8 (amended): with zero detections the motion estimator returns average
exactly 0 and an empty per-detection list; the per-detection list has one
entry per detection; a detection whose normalised region of interest is empty
on either axis contributes motion 0; an empty clipped box whose end does not
wrap (`0 ≤ min(L, a + e)` with `min(L, a + e) ≤ max(0, a)`), and a box out of
bounds on the negative side by at least the full axis length
(`a + e + L ≤ 0`), both give an empty axis. A box out of bounds on the
negative side by less than the axis length wraps instead (see the C8
counterexample). -/
theorem motion_zero_and_empty_box :
    (∀ (mask : Nat → Nat → Nat) (W H thresh : Nat),
      compute_motion_percent mask W H [] thresh = (0, []))
    ∧ (∀ (mask : Nat → Nat → Nat) (W H thresh : Nat) (dets : List Detection),
      (compute_motion_percent mask W H dets thresh).2
        = dets.map fun d => motionValue mask W H thresh d.x d.y d.w d.h)
    ∧ (∀ (mask : Nat → Nat → Nat) (W H thresh : Nat) (x y w h : Int),
      (sliceIdx W (min (W : Int) (x + w)) ≤ sliceIdx W (max 0 x) ∨
        sliceIdx H (min (H : Int) (y + h)) ≤ sliceIdx H (max 0 y)) →
      motionValue mask W H thresh x y w h = 0)
    ∧ (∀ (L : Nat) (a e : Int), 0 ≤ min (L : Int) (a + e) →
      min (L : Int) (a + e) ≤ max 0 a →
      sliceIdx L (min (L : Int) (a + e)) ≤ sliceIdx L (max 0 a))
    ∧ (∀ (L : Nat) (a e : Int), a + e + (L : Int) ≤ 0 →
      sliceIdx L (min (L : Int) (a + e)) ≤ sliceIdx L (max 0 a)) := by
  refine ⟨fun mask W H thresh => rfl, fun mask W H thresh dets => rfl, ?_, ?_, ?_⟩
  · intro mask W H thresh x y w h hcl
    simp only [motionValue]
    have htot : (sliceIdx H (min (H : Int) (y + h)) - sliceIdx H (max 0 y)) *
        (sliceIdx W (min (W : Int) (x + w)) - sliceIdx W (max 0 x)) = 0 := by
      rcases hcl with hx | hy
      · have hc : sliceIdx W (min (W : Int) (x + w)) - sliceIdx W (max 0 x) = 0 := by
          omega
        rw [hc, Nat.mul_zero]
      · have hr : sliceIdx H (min (H : Int) (y + h)) - sliceIdx H (max 0 y) = 0 := by
          omega
        rw [hr, Nat.zero_mul]
    rw [if_pos htot]
  · intro L a e h0 hle
    unfold sliceIdx
    split_ifs <;> omega
  · intro L a e hfar
    unfold sliceIdx
    split_ifs <;> omega

/-- Witness for C8 (amended): a box out of bounds on the positive side has an
empty normalised axis and motion 0. -/
theorem motion_zero_and_empty_box_witness :
    (sliceIdx 5 (min ((5 : Nat) : Int) (10 + 3)) ≤ sliceIdx 5 (max 0 10) ∨
      sliceIdx 5 (min ((5 : Nat) : Int) (10 + 3)) ≤ sliceIdx 5 (max 0 10))
    ∧ motionValue (fun _ _ => 0) 5 5 25 10 10 3 3 = 0 :=
  ⟨Or.inl (by decide),
   motion_zero_and_empty_box.2.2.1 (fun _ _ => 0) 5 5 25 10 10 3 3
     (Or.inl (by decide))⟩

/-- Counterexample to C8 as stated: a box fully out of bounds on the negative
side need not contribute motion 0. For frame width 4, the box
`(x, w) = (-5, 2)` has clipped end `x2 = min(4, -3) = -3 ≤ max(0, -5)`, so by
the claim its motion should be 0.0; but numpy resolves the negative slice
stop as `4 + (-3) = 1`, giving a non-empty region of interest (column 0), and
over an all-moving mask the code computes 100.0. -/
theorem motion_wrap_nonzero :
    (min ((4 : Nat) : Int) (-5 + 2) ≤ max 0 (-5))
    ∧ motionValue (fun _ _ => 255) 4 4 25 (-5) 0 2 1 = 100
    ∧ motionValue (fun _ _ => 255) 4 4 25 (-5) 0 2 1 ≠ 0 := by
  have hv : motionValue (fun _ _ => 255) 4 4 25 (-5) 0 2 1 = 100 := by
    simp only [motionValue, sliceIdx]
    norm_num [List.range_succ]
  exact ⟨by decide, hv, by rw [hv]; norm_num⟩

/-- C4 (amended): the log's header is written exactly once, at open time, and
lists frame, total count, average motion and then one column per zone present
at open time; each processed frame appends exactly one row; a row's zone-count
fields follow the zone list current at that frame (so only the header is
fixed at open time); the motion field always carries exactly two decimals. -/
theorem csv_log_structure :
    (∀ (openZones : List Zone) (trace : List (List Detection × ℚ × List Zone)),
      (runLog openZones trace).getD 0 [] = csvHeader openZones
      ∧ (runLog openZones trace).length = 1 + trace.length
      ∧ ∀ i, i < trace.length →
          (runLog openZones trace).getD (i + 1) []
            = csvRow i (trace.getD i ([], 0, [])).1
                (trace.getD i ([], 0, [])).2.1
                (trace.getD i ([], 0, [])).2.2)
    ∧ (∀ zones : List Zone, (csvHeader zones).length = 3 + zones.length)
    ∧ (∀ (frameIdx : Nat) (dets : List Detection) (avg : ℚ) (zones : List Zone),
        (csvRow frameIdx dets avg zones).length = 3 + zones.length)
    ∧ (∀ q : ℚ, ∃ (s : String) (r : Nat),
        fmt2 q = s ++ "." ++ pad2 r ∧ (pad2 r).length = 2) := by
  refine ⟨?_, ?_, ?_, ?_⟩
  · intro openZones trace
    refine ⟨rfl, ?_, ?_⟩
    · simp only [runLog, List.length_cons, List.length_map, List.enum_length]
      omega
    · intro i hi
      have hlen : i <
          (trace.enum.map fun p => csvRow p.1 p.2.1 p.2.2.1 p.2.2.2).length := by
        simp only [List.length_map, List.enum_length]
        exact hi
      simp only [runLog, List.getD_cons_succ]
      rw [List.getD_eq_getElem _ _ hlen, List.getD_eq_getElem trace _ hi]
      rw [List.getElem_map, List.getElem_enum]
  · intro zones
    simp [csvHeader]
    omega
  · intro frameIdx dets avg zones
    simp [csvRow]
    omega
  · intro q
    simp only [fmt2]
    split
    · exact ⟨_, _, rfl, rfl⟩
    · exact ⟨_, _, rfl, rfl⟩

/-- Witness for C4 (amended) on a concrete one-frame run. -/
theorem csv_log_structure_witness :
    0 < ([([], (0 : ℚ), [Zone.mk "A" []])] :
        List (List Detection × ℚ × List Zone)).length
    ∧ (runLog [Zone.mk "A" []] [([], (0 : ℚ), [Zone.mk "A" []])]).getD 1 []
        = csvRow 0 [] 0 [Zone.mk "A" []] :=
  ⟨by decide,
   (csv_log_structure.1 [Zone.mk "A" []]
     [([], (0 : ℚ), [Zone.mk "A" []])]).2.2 0 (by decide)⟩

/-- Counterexample to C4 as stated: a zone added after the sink is opened does
gain a column in the log's rows. With zone `A` present at open time and zone
`B` added afterwards, the header has 4 fields but the next row has 5, and the
extra trailing field is exactly `B`'s count. -/
theorem csv_row_gains_column_for_late_zone :
    (csvHeader [Zone.mk "A" [(0, 0), (10, 0), (10, 10), (0, 10)]]).length = 4
    ∧ (csvRow 0 [] 0 [Zone.mk "A" [(0, 0), (10, 0), (10, 10), (0, 10)],
        Zone.mk "B" [(0, 0), (40, 0), (40, 40), (0, 40)]]).length = 5
    ∧ (csvRow 0 [] 0 [Zone.mk "A" [(0, 0), (10, 0), (10, 10), (0, 10)],
        Zone.mk "B" [(0, 0), (40, 0), (40, 40), (0, 40)]]).getD 4 ""
      = toString (countsPerZone []
          [Zone.mk "A" [(0, 0), (10, 0), (10, 10), (0, 10)],
            Zone.mk "B" [(0, 0), (40, 0), (40, 40), (0, 40)]] "B") := by
  refine ⟨rfl, rfl, rfl⟩
